import Mathlib

/-!
Verification of the spelled pitch/interval model of the `pitchtypes` library.

The repository sources available here are the documentation (`docs/types/*.rst`),
the changelog (`CHANGELOG`), the `Tutorial.ipynb` notebook and the README; the
Python implementation modules themselves (`pitchtypes/spelled.py`,
`pitchtypes/basetypes.py`) are not present.  The definitions below therefore
embed the spelled value model, parser/printer, ordering, one-hot codec and
converter registry as described by the specification and the repository's own
documentation and doctests, and the theorems check the specification's claims
against that model.
-/

namespace PitchTypes

/-! ### Decimal digits: printing and parsing of integers

Modelled from the spec: the octave suffixes of spelled pitches and intervals
are plain decimal integers (Python `str`/`int`), printed as an optional minus
sign followed by decimal digits. -/

/-- Character for a single decimal digit (`0 ≤ d < 10`). -/
def digitChar (d : Nat) : Char :=
  match d with
  | 0 => '0' | 1 => '1' | 2 => '2' | 3 => '3' | 4 => '4'
  | 5 => '5' | 6 => '6' | 7 => '7' | 8 => '8' | _ => '9'

/-- Numeric value of a decimal digit character. -/
def charDigit (c : Char) : Nat := c.toNat - 48

/-- Recognizes a decimal digit character. -/
def isDigitChar (c : Char) : Bool := 48 ≤ c.toNat && c.toNat ≤ 57

/-- Fuel-driven digit expansion of a natural number (structural in the fuel,
so concrete values compute by reduction). -/
def natCharsAux : Nat → Nat → List Char
  | 0, _ => []
  | fuel + 1, n => if n = 0 then [] else natCharsAux fuel (n / 10) ++ [digitChar (n % 10)]

/-- Decimal digit characters of a natural number, most significant first. -/
def natChars (n : Nat) : List Char :=
  if n = 0 then ['0'] else natCharsAux (n + 1) n

/-- Decimal form of an integer: optional minus sign, then digits. -/
def intChars (z : Int) : List Char :=
  if z < 0 then '-' :: natChars z.natAbs else natChars z.toNat

/-- Value of a digit-character list, most significant digit first. -/
def digitsVal (cs : List Char) : Nat := cs.foldl (fun acc c => acc * 10 + charDigit c) 0

/-- Parse a nonempty all-digit character list as a natural number. -/
def charsNat (cs : List Char) : Option Nat :=
  if cs = [] then none
  else if cs.all isDigitChar then some (digitsVal cs)
  else none

/-- Parse a decimal integer: optional leading minus sign, then digits. -/
def charsInt (cs : List Char) : Option Int :=
  match cs with
  | [] => none
  | c :: rest =>
    if c = '-' then (charsNat rest).map (fun n => -(n : Int))
    else (charsNat (c :: rest)).map (fun n => (n : Int))

/-! ### Counting a leading run of characters -/

/-- Count the longest leading run of characters satisfying `p`, returning the
count and the remainder of the list. -/
def spanCount (p : Char → Bool) : List Char → Nat × List Char
  | [] => (0, [])
  | x :: xs => if p x then ((spanCount p xs).1 + 1, (spanCount p xs).2) else (0, x :: xs)

/-! ### The line-of-fifths arithmetic of the spelled value model

Modelled from the spec: the implementation module `pitchtypes/spelled.py` is
not present in the sources; the following derived-accessor arithmetic follows
§3/§4.2 of the spec and the worked examples in `docs/types/spelled.rst`:
`degree` is the diatonic step of a fifths count (`(4*f) mod 7`), `alteration`
the deviation from the perfect/major quality (`(f+1) div 7`, floor division),
and `baseFifths` the fifths value of the perfect/major interval for each
diatonic step. -/

/-- Diatonic step (0 = unison/C, ..., 6 = seventh/B) of a fifths count. -/
def degreeOf (f : Int) : Int := (4 * f) % 7

/-- Alteration (0 = perfect/major reference) of a fifths count. -/
def alterationOf (f : Int) : Int := (f + 1) / 7

/-- Fifths value of the perfect/major interval with the given diatonic step. -/
def baseFifths (d : Int) : Int :=
  if d = 0 then 0
  else if d = 1 then 2
  else if d = 2 then 4
  else if d = 3 then -1
  else if d = 4 then 1
  else if d = 5 then 3
  else 5

/-- The diatonic steps 1 (unison), 4 and 5 take perfect qualities. -/
def perfectDegree (d : Int) : Bool := d = 0 || d = 3 || d = 4

/-! ### The four spelled types

Modelled from the spec (§3, data model): non-class values store a fifths count
and an internal (dependent) octave count; class values store only fifths. -/

/-- A spelled interval: fifths and internal (dependent) octaves. -/
structure SpelledInterval where
  fifths : Int
  internal_octaves : Int
deriving DecidableEq, Repr

/-- A spelled pitch: fifths and internal (dependent) octaves from C0. -/
structure SpelledPitch where
  fifths : Int
  internal_octaves : Int
deriving DecidableEq, Repr

/-- A spelled interval class: fifths only (octave-equivalent). -/
structure SpelledIntervalClass where
  fifths : Int
deriving DecidableEq, Repr

/-- A spelled pitch class: fifths only (octave-equivalent). -/
structure SpelledPitchClass where
  fifths : Int
deriving DecidableEq, Repr

namespace SpelledInterval

/-- Construct an interval from fifths and internal (dependent) octaves. -/
def from_fifths_and_octaves (f o : Int) : SpelledInterval := ⟨f, o⟩

/-- Construct an interval from fifths and independent (notated) octaves.
Modelled from the spec: `internal_octaves = independent_octaves - floor(fifths * 4 / 7)`. -/
def from_independent (f o : Int) : SpelledInterval := ⟨f, o - (f * 4) / 7⟩

/-- The independent (notated) octaves, as used in the string representation. -/
def octaves (i : SpelledInterval) : Int := i.internal_octaves + (i.fifths * 4) / 7

/-- Component-wise addition on (fifths, internal octaves). -/
def add (i j : SpelledInterval) : SpelledInterval :=
  ⟨i.fifths + j.fifths, i.internal_octaves + j.internal_octaves⟩

/-- Component-wise negation. -/
def neg (i : SpelledInterval) : SpelledInterval := ⟨-i.fifths, -i.internal_octaves⟩

/-- Interval subtraction. -/
def sub (i j : SpelledInterval) : SpelledInterval := add i (neg j)

/-- The perfect unison. -/
def unison : SpelledInterval := ⟨0, 0⟩

/-- The corresponding interval class (projection to fifths). -/
def ic (i : SpelledInterval) : SpelledIntervalClass := ⟨i.fifths⟩

/-- Total diatonic displacement, including octaves. -/
def diatonic_steps (i : SpelledInterval) : Int := i.fifths * 4 + i.internal_octaves * 7

/-- Scale degree implied by the interval (downward intervals reflected upward). -/
def degree (i : SpelledInterval) : Int := degreeOf i.fifths

/-- Alteration: deviation from the perfect/major quality of the interval class. -/
def alteration (i : SpelledInterval) : Int := alterationOf i.fifths

/-- Direction of an interval: sign of the diatonic steps, ties among unisons
broken by the alteration (the perfect unison is neutral, augmented unisons
point up, diminished unisons down — the corrected v0.4.0 semantics). -/
def direction (i : SpelledInterval) : Int :=
  if i.diatonic_steps < 0 then -1
  else if 0 < i.diatonic_steps then 1
  else if i.alteration < 0 then -1
  else if 0 < i.alteration then 1
  else 0

/-- Direction-aware generic interval, limited to a single octave. -/
def generic (i : SpelledInterval) : Int :=
  if i.direction < 0 then -(degreeOf (-i.fifths)) else degreeOf i.fifths

/-- Diatonic ordering: by diatonic steps first, then by alteration. -/
def lt (i j : SpelledInterval) : Prop :=
  i.diatonic_steps < j.diatonic_steps ∨
    (i.diatonic_steps = j.diatonic_steps ∧ i.alteration < j.alteration)

instance : DecidablePred fun p : SpelledInterval × SpelledInterval => lt p.1 p.2 :=
  fun _ => by unfold lt; infer_instance

instance (i j : SpelledInterval) : Decidable (lt i j) := by unfold lt; infer_instance

end SpelledInterval

namespace SpelledPitch

/-- Construct a pitch from fifths and internal (dependent) octaves. -/
def from_fifths_and_octaves (f o : Int) : SpelledPitch := ⟨f, o⟩

/-- Construct a pitch from fifths and independent (notated) octaves. -/
def from_independent (f o : Int) : SpelledPitch := ⟨f, o - (f * 4) / 7⟩

/-- The independent (notated) octaves, the number written in the pitch name. -/
def octaves (p : SpelledPitch) : Int := p.internal_octaves + (p.fifths * 4) / 7

/-- Transpose a pitch by an interval (component-wise). -/
def addInterval (p : SpelledPitch) (i : SpelledInterval) : SpelledPitch :=
  ⟨p.fifths + i.fifths, p.internal_octaves + i.internal_octaves⟩

/-- Difference of two pitches, an interval (component-wise). -/
def subPitch (p q : SpelledPitch) : SpelledInterval :=
  ⟨p.fifths - q.fifths, p.internal_octaves - q.internal_octaves⟩

/-- The corresponding pitch class (projection to fifths). -/
def pc (p : SpelledPitch) : SpelledPitchClass := ⟨p.fifths⟩

/-- Letter index of the pitch (C = 0, D = 1, ..., B = 6). -/
def degree (p : SpelledPitch) : Int := degreeOf p.fifths

/-- Accidentals of the pitch (natural = 0, sharps positive, flats negative). -/
def alteration (p : SpelledPitch) : Int := alterationOf p.fifths

/-- Total diatonic step count of the pitch, used as the primary ordering key. -/
def diatonic_steps (p : SpelledPitch) : Int := p.fifths * 4 + p.internal_octaves * 7

/-- Diatonic ordering on pitches: note name and octave first, alteration second. -/
def lt (p q : SpelledPitch) : Prop :=
  p.diatonic_steps < q.diatonic_steps ∨
    (p.diatonic_steps = q.diatonic_steps ∧ p.alteration < q.alteration)

instance (p q : SpelledPitch) : Decidable (lt p q) := by unfold lt; infer_instance

/-- `generic` was removed from spelled pitch types in v0.4.0 (changelog):
calling it fails.  Modelled from the spec and the changelog entry
"remove `generic` and `diatonic_steps` from spelled pitch types". -/
def generic (_ : SpelledPitch) : Except String Int :=
  .error "NotImplementedError: generic is not defined for pitches"

/-- `diatonic_steps` as a public accessor was removed from spelled pitch types
in v0.4.0 (changelog): calling it fails. -/
def diatonic_stepsAccessor (_ : SpelledPitch) : Except String Int :=
  .error "NotImplementedError: diatonic_steps is not defined for pitches"

end SpelledPitch

namespace SpelledIntervalClass

/-- Construct an interval class from its fifths count. -/
def from_fifths (f : Int) : SpelledIntervalClass := ⟨f⟩

/-- Component-wise addition (fifths add). -/
def add (i j : SpelledIntervalClass) : SpelledIntervalClass := ⟨i.fifths + j.fifths⟩

/-- Negation (complementary class). -/
def neg (i : SpelledIntervalClass) : SpelledIntervalClass := ⟨-i.fifths⟩

/-- The perfect unison class. -/
def unison : SpelledIntervalClass := ⟨0⟩

/-- Degree, generic interval and diatonic steps coincide for interval classes. -/
def degree (i : SpelledIntervalClass) : Int := degreeOf i.fifths

/-- Generic interval of the class (same as `degree`). -/
def generic (i : SpelledIntervalClass) : Int := degreeOf i.fifths

/-- Diatonic steps of the class (same as `degree`). -/
def diatonic_steps (i : SpelledIntervalClass) : Int := degreeOf i.fifths

/-- Alteration of the upward representative. -/
def alteration (i : SpelledIntervalClass) : Int := alterationOf i.fifths

/-- Direction of the shortest representative of the class: the perfect unison
is neutral, altered unisons follow their alteration (diminished down), steps
up to a fourth point up, fifths and above point down (v0.4.0 semantics). -/
def direction (i : SpelledIntervalClass) : Int :=
  if i.fifths = 0 then 0
  else if degreeOf i.fifths = 0 then (if i.fifths < 0 then -1 else 1)
  else if degreeOf i.fifths ≤ 3 then 1
  else -1

/-- Line-of-fifths ordering: exactly the order of the fifths integer. -/
def lt (i j : SpelledIntervalClass) : Prop := i.fifths < j.fifths

instance (i j : SpelledIntervalClass) : Decidable (lt i j) := by unfold lt; infer_instance

end SpelledIntervalClass

namespace SpelledPitchClass

/-- Construct a pitch class from its fifths count. -/
def from_fifths (f : Int) : SpelledPitchClass := ⟨f⟩

/-- Transpose a pitch class by an interval class. -/
def addIntervalClass (p : SpelledPitchClass) (i : SpelledIntervalClass) : SpelledPitchClass :=
  ⟨p.fifths + i.fifths⟩

/-- Difference of two pitch classes, an interval class. -/
def subPitchClass (p q : SpelledPitchClass) : SpelledIntervalClass := ⟨p.fifths - q.fifths⟩

/-- Letter index of the pitch class (C = 0, D = 1, ..., B = 6). -/
def degree (p : SpelledPitchClass) : Int := degreeOf p.fifths

/-- Accidentals of the pitch class (sharps positive, flats negative). -/
def alteration (p : SpelledPitchClass) : Int := alterationOf p.fifths

/-- Line-of-fifths ordering on pitch classes. -/
def lt (p q : SpelledPitchClass) : Prop := p.fifths < q.fifths

instance (p q : SpelledPitchClass) : Decidable (lt p q) := by unfold lt; infer_instance

/-- `generic` was removed from spelled pitch types in v0.4.0: calling it fails. -/
def generic (_ : SpelledPitchClass) : Except String Int :=
  .error "NotImplementedError: generic is not defined for pitches"

/-- `diatonic_steps` was removed from spelled pitch types in v0.4.0: calling it fails. -/
def diatonic_stepsAccessor (_ : SpelledPitchClass) : Except String Int :=
  .error "NotImplementedError: diatonic_steps is not defined for pitches"

end SpelledPitchClass

/-! ### Printer

Modelled from the spec (§4.4) and `docs/types/spelled.rst`: quality letters
with minimal repetition (`d..d`, `m`, `P`, `M`, `a..a`), generic number 1-7, a
sign only for negative-direction non-class intervals, `:octaves` suffix only
for non-class intervals, pitches as letter, accidentals and octave number. -/

/-- Quality letters of a fifths count: multiply diminished to multiply augmented. -/
def qualityChars (f : Int) : List Char :=
  let a := alterationOf f
  if perfectDegree (degreeOf f) then
    if a = 0 then ['P']
    else if 0 < a then List.replicate a.toNat 'a'
    else List.replicate (-a).toNat 'd'
  else
    if a = 0 then ['M']
    else if a = -1 then ['m']
    else if 0 < a then List.replicate a.toNat 'a'
    else List.replicate (-a - 1).toNat 'd'

/-- The generic-number digit (1-7) of a fifths count. -/
def degreeDigitChar (f : Int) : Char := digitChar (degreeOf f + 1).toNat

/-- Quality letters followed by the generic number: the interval-class name. -/
def qualDigitChars (f : Int) : List Char := qualityChars f ++ [degreeDigitChar f]

/-- Uppercase letter of a pitch(-class) fifths count. -/
def letterChar (f : Int) : Char :=
  let d := degreeOf f
  if d = 0 then 'C'
  else if d = 1 then 'D'
  else if d = 2 then 'E'
  else if d = 3 then 'F'
  else if d = 4 then 'G'
  else if d = 5 then 'A'
  else 'B'

/-- Accidentals of a pitch(-class) fifths count: sharps or flats. -/
def accidentalChars (f : Int) : List Char :=
  let a := alterationOf f
  if 0 ≤ a then List.replicate a.toNat '#' else List.replicate (-a).toNat 'b'

/-- The pitch-class name: letter followed by accidentals. -/
def spcChars (f : Int) : List Char := letterChar f :: accidentalChars f

/-- Characters of an interval printed without a direction sign. -/
def intervalAbsChars (i : SpelledInterval) : List Char :=
  qualDigitChars i.fifths ++ ':' :: intChars i.octaves

/-- Characters of an interval: a `-` sign exactly when the direction is negative. -/
def intervalChars (i : SpelledInterval) : List Char :=
  if i.direction < 0 then '-' :: intervalAbsChars i.neg else intervalAbsChars i

/-- Canonical string form of a spelled interval. -/
def SpelledInterval.name (i : SpelledInterval) : String := String.mk (intervalChars i)

/-- Canonical string form of a spelled interval class (never signed). -/
def SpelledIntervalClass.name (i : SpelledIntervalClass) : String :=
  String.mk (qualDigitChars i.fifths)

/-- Characters of a pitch: letter, accidentals, independent octave number. -/
def pitchChars (p : SpelledPitch) : List Char := spcChars p.fifths ++ intChars p.octaves

/-- Canonical string form of a spelled pitch. -/
def SpelledPitch.name (p : SpelledPitch) : String := String.mk (pitchChars p)

/-- Canonical string form of a spelled pitch class. -/
def SpelledPitchClass.name (p : SpelledPitchClass) : String := String.mk (spcChars p.fifths)

/-! ### Parser

Modelled from the spec (§4.4) and `docs/types/spelled.rst`: quality runs
(`d+`, `m`, `P`, `M`, `a+`) with quality-to-step compatibility enforced,
generic number 1-7, `:octaves` suffix for non-class intervals, a leading `-`
negating the whole value (a leading `-` on an interval-class string is
accepted and normalized to the complementary upward class, as in the
documentation's doctest `SpelledIntervalClass("-M3") == m6`), pitches as an
uppercase letter, a run of accidentals (ASCII or Unicode, one kind only) and
a signed octave number.  Parse failures return `none`. -/

/-- Parse a generic-number digit `1`-`7` into a diatonic step `0`-`6`. -/
def parseDegreeDigit (c : Char) : Option Int :=
  if 49 ≤ c.toNat && c.toNat ≤ 55 then some ((c.toNat : Int) - 49) else none

/-- Shared tail of the quality parsers: parse the generic-number digit and
apply the quality-specific fifths adjustment. -/
def pqdTail (adj : Int -> Option Int) (cs : List Char) : Option (Int × List Char) :=
  match cs with
  | [] => none
  | x :: rest2 => (parseDegreeDigit x).bind (fun s => (adj s).map (fun v => (v, rest2)))

/-- Parse a quality run and generic number, returning the fifths count of the
interval class and the unconsumed remainder.  `m`/`M`/`P` forbid repetition
and enforce quality-to-step compatibility; `d`/`a` allow repetition. -/
def parseQualDigit (cs : List Char) : Option (Int × List Char) :=
  match cs with
  | [] => none
  | c :: rest =>
    if c = 'P' then pqdTail (fun s => if perfectDegree s then some (baseFifths s) else none) rest
    else if c = 'M' then
      pqdTail (fun s => if perfectDegree s then none else some (baseFifths s)) rest
    else if c = 'm' then
      pqdTail (fun s => if perfectDegree s then none else some (baseFifths s - 7)) rest
    else if c = 'a' then
      pqdTail
        (fun s => some (baseFifths s + 7 * (((spanCount (fun x => x = 'a') rest).1 : Int) + 1)))
        (spanCount (fun x => x = 'a') rest).2
    else if c = 'd' then
      pqdTail
        (fun s =>
          if perfectDegree s then
            some (baseFifths s - 7 * (((spanCount (fun x => x = 'd') rest).1 : Int) + 1))
          else
            some (baseFifths s - 7 * (((spanCount (fun x => x = 'd') rest).1 : Int) + 1) - 7))
        (spanCount (fun x => x = 'd') rest).2
    else none

/-- Recognizes a sharp accidental, ASCII or Unicode. -/
def isSharpChar (c : Char) : Bool := c = '#' || c = '♯'

/-- Recognizes a flat accidental, ASCII or Unicode. -/
def isFlatChar (c : Char) : Bool := c = 'b' || c = '♭'

/-- Base fifths of an uppercase letter name. -/
def letterFifths (c : Char) : Option Int :=
  if c = 'C' then some 0
  else if c = 'D' then some 2
  else if c = 'E' then some 4
  else if c = 'F' then some (-1)
  else if c = 'G' then some 1
  else if c = 'A' then some 3
  else if c = 'B' then some 5
  else none

/-- Consume the accidental run after a letter: a run of sharps or a run of
flats (one kind only), adjusting the base fifths by seven per accidental. -/
def pcAccidentals (base : Int) (rest : List Char) : Option (Int × List Char) :=
  match rest with
  | [] => some (base, ([] : List Char))
  | x :: _ =>
    if isSharpChar x then
      some (base + 7 * ((spanCount isSharpChar rest).1 : Int), (spanCount isSharpChar rest).2)
    else if isFlatChar x then
      some (base - 7 * ((spanCount isFlatChar rest).1 : Int), (spanCount isFlatChar rest).2)
    else some (base, rest)

/-- Parse a letter and a run of accidentals (one kind only), returning the
fifths count and the unconsumed remainder. -/
def parsePCPrefix (cs : List Char) : Option (Int × List Char) :=
  match cs with
  | [] => none
  | c :: rest => (letterFifths c).bind (fun base => pcAccidentals base rest)

/-- Parse the unsigned body of an interval string: class name, `:`, octaves. -/
def parseIntervalBody (cs : List Char) : Option SpelledInterval :=
  (parseQualDigit cs).bind (fun fr =>
    match fr.2 with
    | [] => none
    | x :: rest2 =>
      if x = ':' then (charsInt rest2).map (SpelledInterval.from_independent fr.1) else none)

/-- Parse an interval string: a leading `-` negates the whole value. -/
def parseIntervalChars (cs : List Char) : Option SpelledInterval :=
  match cs with
  | [] => none
  | c :: rest =>
    if c = '-' then (parseIntervalBody rest).map SpelledInterval.neg
    else parseIntervalBody (c :: rest)

/-- Parse an interval-class string: a leading `-` is accepted and normalized
to the complementary (upward) class. -/
def parseSICChars (cs : List Char) : Option SpelledIntervalClass :=
  match cs with
  | [] => none
  | c :: rest =>
    if c = '-' then
      (parseQualDigit rest).bind (fun fr => if fr.2 = [] then some ⟨-fr.1⟩ else none)
    else
      (parseQualDigit (c :: rest)).bind (fun fr => if fr.2 = [] then some ⟨fr.1⟩ else none)

/-- Parse a pitch string: letter, accidentals, signed octave number. -/
def parsePitchChars (cs : List Char) : Option SpelledPitch :=
  (parsePCPrefix cs).bind (fun fr => (charsInt fr.2).map (SpelledPitch.from_independent fr.1))

/-- Parse a pitch-class string: letter and accidentals only. -/
def parseSPCChars (cs : List Char) : Option SpelledPitchClass :=
  (parsePCPrefix cs).bind (fun fr => if fr.2 = [] then some ⟨fr.1⟩ else none)

/-- String-level constructor of `SpelledInterval`, as in `SpelledInterval("M2:0")`. -/
def SpelledInterval.parse (s : String) : Option SpelledInterval :=
  parseIntervalChars s.toList

/-- String-level constructor of `SpelledPitch`, as in `SpelledPitch("Eb4")`. -/
def SpelledPitch.parse (s : String) : Option SpelledPitch := parsePitchChars s.toList

/-- String-level constructor of `SpelledIntervalClass`. -/
def SpelledIntervalClass.parse (s : String) : Option SpelledIntervalClass :=
  parseSICChars s.toList

/-- String-level constructor of `SpelledPitchClass`. -/
def SpelledPitchClass.parse (s : String) : Option SpelledPitchClass :=
  parseSPCChars s.toList

/-- Letter of a spelled pitch, as an uppercase character. -/
def SpelledPitch.letter (p : SpelledPitch) : Char := letterChar p.fifths

/-- Letter of a spelled pitch class, as an uppercase character. -/
def SpelledPitchClass.letter (p : SpelledPitchClass) : Char := letterChar p.fifths

/-- Diatonic index of an uppercase letter (C = 0, D = 1, ..., B = 6). -/
def letterIndex (c : Char) : Option Int :=
  if c = 'C' then some 0
  else if c = 'D' then some 1
  else if c = 'E' then some 2
  else if c = 'F' then some 3
  else if c = 'G' then some 4
  else if c = 'A' then some 5
  else if c = 'B' then some 6
  else none

/-! ### One-hot codec for class values

Modelled from the spec (§4.5): for a class value and inclusive bounds
`(lower, upper)`, a 1-D indicator of length `upper-lower+1` with a single `1`
at index `fifths-lower`; a fifths value outside the bounds is an
index-out-of-bounds error. -/

/-- One-hot vector of a fifths count over the inclusive range `[lo, hi]`. -/
def onehotClass (f lo hi : Int) : Except String (List Int) :=
  if f < lo || hi < f then .error "IndexOutOfRange"
  else .ok ((List.range (hi - lo + 1).toNat).map
    (fun (k : Nat) => if lo + (k : Int) = f then (1 : Int) else 0))

/-- One-hot encoding of a spelled pitch class over an inclusive fifths range. -/
def SpelledPitchClass.onehot (p : SpelledPitchClass) (fifth_range : Int × Int) :
    Except String (List Int) :=
  onehotClass p.fifths fifth_range.1 fifth_range.2

/-- One-hot encoding of a spelled interval class over an inclusive fifths range. -/
def SpelledIntervalClass.onehot (i : SpelledIntervalClass) (fifth_range : Int × Int) :
    Except String (List Int) :=
  onehotClass i.fifths fifth_range.1 fifth_range.2

/-! ### Converter registry

Modelled from the spec (§4.6) and the `Tutorial.ipynb` converter cells: the
implementation module (`pitchtypes/basetypes.py`, class `Converters`) is not
present in the sources.  The registry maps a (source, target) pair of type
identities to an ordered pipeline of unary conversion functions.  Registering
`from_type → to_type` inserts the direct entry `[fn]`; when implicit-converter
creation is requested, it also synthesizes, for every existing entry
`to_type → X`, the entry `from_type → X = [fn] ++ pipeline(to_type → X)` and,
for every existing entry `Y → from_type`, the entry
`Y → to_type = pipeline(Y → from_type) ++ [fn]`, never overwriting an
existing entry.  Conversion applies the pipeline stages in order and fails
with a no-conversion-path error when no entry exists. -/

/-- A converter registry over values of type `α`, with `Nat` type identities. -/
structure ConversionRegistry (α : Type) where
  entries : List ((Nat × Nat) × List (α → α))

namespace ConversionRegistry

variable {α : Type}

/-- The pipeline registered for a (source, target) pair, if any. -/
def lookupPipeline (r : ConversionRegistry α) (src tgt : Nat) : Option (List (α → α)) :=
  (r.entries.find? (fun e => e.1.1 == src && e.1.2 == tgt)).map Prod.snd

/-- Whether a conversion path from `src` to `tgt` is registered. -/
def has_path (r : ConversionRegistry α) (src tgt : Nat) : Bool :=
  (r.lookupPipeline src tgt).isSome

/-- Apply the stages of a conversion pipeline in order. -/
def apply_pipeline (p : List (α → α)) (v : α) : α := p.foldl (fun x f => f x) v

/-- Convert a value of type identity `src` to type identity `tgt`. -/
def convert (r : ConversionRegistry α) (src : Nat) (v : α) (tgt : Nat) : Except String α :=
  match r.lookupPipeline src tgt with
  | some p => .ok (apply_pipeline p v)
  | none => .error "NoConversionPath"

/-- Insert or overwrite the entry for a key. -/
def setEntry (es : List ((Nat × Nat) × List (α → α))) (k : Nat × Nat) (p : List (α → α)) :
    List ((Nat × Nat) × List (α → α)) :=
  if es.any (fun e => e.1 == k) then es.map (fun e => if e.1 == k then (k, p) else e)
  else es ++ [(k, p)]

/-- Register a converter, optionally creating implicit (composed) converters. -/
def register (r : ConversionRegistry α) (src tgt : Nat) (f : α → α)
    (create_implicit_converters : Bool) : ConversionRegistry α :=
  let es1 := setEntry r.entries (src, tgt) [f]
  if create_implicit_converters then
    let fwd := es1.filterMap (fun e =>
      if e.1.1 == tgt && !(es1.any (fun e2 => e2.1 == (src, e.1.2))) then
        some ((src, e.1.2), f :: e.2)
      else none)
    let bwd := es1.filterMap (fun e =>
      if e.1.2 == src && !(es1.any (fun e2 => e2.1 == (e.1.1, tgt))) then
        some ((e.1.1, tgt), e.2 ++ [f])
      else none)
    ⟨es1 ++ fwd ++ bwd⟩
  else ⟨es1⟩

/-- The empty registry. -/
def empty : ConversionRegistry α := ⟨[]⟩

end ConversionRegistry

/-! ## Theorems -/

/-! ### Decimal printing and parsing -/

theorem charDigit_digitChar {d : Nat} (h : d < 10) : charDigit (digitChar d) = d := by
  interval_cases d <;> rfl

theorem isDigitChar_digitChar {d : Nat} (h : d < 10) : isDigitChar (digitChar d) = true := by
  interval_cases d <;> rfl

theorem digitChar_ne_dash {d : Nat} (h : d < 10) : digitChar d ≠ '-' := by
  interval_cases d <;> decide

theorem digitsVal_append (l : List Char) (d : Char) :
    digitsVal (l ++ [d]) = digitsVal l * 10 + charDigit d := by
  unfold digitsVal
  rw [List.foldl_append]
  rfl

theorem natCharsAux_spec :
    ∀ n fuel, 0 < n → n < fuel →
      natCharsAux fuel n ≠ [] ∧ (natCharsAux fuel n).all isDigitChar = true ∧
        digitsVal (natCharsAux fuel n) = n := by
  intro n
  induction n using Nat.strong_induction_on with
  | _ n ih =>
    intro fuel hpos hlt
    cases fuel with
    | zero => omega
    | succ fuel =>
      have heq : natCharsAux (fuel + 1) n =
          natCharsAux fuel (n / 10) ++ [digitChar (n % 10)] := by
        show (if n = 0 then [] else natCharsAux fuel (n / 10) ++ [digitChar (n % 10)]) = _
        rw [if_neg (by omega)]
      rw [heq]
      have hdig : isDigitChar (digitChar (n % 10)) = true :=
        isDigitChar_digitChar (by omega)
      have hval : charDigit (digitChar (n % 10)) = n % 10 := charDigit_digitChar (by omega)
      by_cases hsmall : n < 10
      · have h10 : n / 10 = 0 := by omega
        have hnil : natCharsAux fuel (n / 10) = [] := by
          rw [h10]
          cases fuel <;> rfl
        rw [hnil, List.nil_append]
        refine ⟨by simp, by simp [hdig], ?_⟩
        show digitsVal [digitChar (n % 10)] = n
        unfold digitsVal
        show 0 * 10 + charDigit (digitChar (n % 10)) = n
        rw [hval]
        omega
      · obtain ⟨hne, hall, hv⟩ := ih (n / 10) (by omega) fuel (by omega) (by omega)
        refine ⟨by simp, ?_, ?_⟩
        · rw [List.all_append, hall]
          simp [hdig]
        · rw [digitsVal_append, hv, hval]
          omega

theorem natChars_ne_nil (n : Nat) : natChars n ≠ [] := by
  unfold natChars
  split
  · simp
  · next h => exact (natCharsAux_spec n (n + 1) (by omega) (by omega)).1

theorem natChars_all_digits (n : Nat) : (natChars n).all isDigitChar = true := by
  unfold natChars
  split
  · rfl
  · next h => exact (natCharsAux_spec n (n + 1) (by omega) (by omega)).2.1

theorem charsNat_natChars (n : Nat) : charsNat (natChars n) = some n := by
  unfold charsNat
  rw [if_neg (natChars_ne_nil n), if_pos (natChars_all_digits n)]
  unfold natChars
  split
  · next h => subst h; rfl
  · next h =>
    exact congrArg some (natCharsAux_spec n (n + 1) (by omega) (by omega)).2.2

theorem natChars_head_ne_dash (n : Nat) :
    ∀ c cs, natChars n = c :: cs → c ≠ '-' := by
  intro c cs h hcon
  have hall := natChars_all_digits n
  rw [h, hcon] at hall
  simp [List.all_cons, isDigitChar] at hall

theorem charsInt_cons (c : Char) (rest : List Char) :
    charsInt (c :: rest) =
      if c = '-' then (charsNat rest).map (fun n => -(n : Int))
      else (charsNat (c :: rest)).map (fun n => (n : Int)) := rfl

theorem charsInt_intChars (z : Int) : charsInt (intChars z) = some z := by
  unfold intChars
  split
  · next hneg =>
    show charsInt ('-' :: natChars z.natAbs) = some z
    rw [charsInt_cons, if_pos rfl, charsNat_natChars]
    exact congrArg some (by omega : -((z.natAbs : Nat) : Int) = z)
  · next hpos =>
    cases hc : natChars z.toNat with
    | nil => exact absurd hc (natChars_ne_nil _)
    | cons c cs =>
      have hdash := natChars_head_ne_dash z.toNat c cs hc
      rw [charsInt_cons, if_neg hdash]
      rw [← hc, charsNat_natChars]
      exact congrArg some (by omega : ((z.toNat : Nat) : Int) = z)


theorem spanCount_cons_neg {p : Char → Bool} {x : Char} (xs : List Char) (h : p x = false) :
    spanCount p (x :: xs) = (0, x :: xs) := by
  simp [spanCount, h]

theorem spanCount_replicate {p : Char → Bool} {c : Char} (h : p c = true) (n : Nat)
    (rest : List Char) :
    spanCount p (List.replicate n c ++ rest) =
      ((spanCount p rest).1 + n, (spanCount p rest).2) := by
  induction n with
  | zero => simp
  | succ n ih =>
    rw [List.replicate_succ, List.cons_append]
    have harith : (spanCount p rest).1 + n + 1 = (spanCount p rest).1 + (n + 1) := by omega
    simp [spanCount, h, ih, harith]


theorem degreeOf_nonneg (f : Int) : 0 ≤ degreeOf f := by unfold degreeOf; omega

theorem degreeOf_lt (f : Int) : degreeOf f < 7 := by unfold degreeOf; omega

/-- Every fifths count is its perfect/major base plus seven per alteration. -/
theorem baseFifths_degreeOf (f : Int) :
    baseFifths (degreeOf f) + 7 * alterationOf f = f := by
  unfold baseFifths degreeOf alterationOf
  split_ifs <;> omega

/-! ### Quality and generic-number round-trip -/

theorem parseDegreeDigit_degreeDigitChar (f : Int) :
    parseDegreeDigit (degreeDigitChar f) = some (degreeOf f) := by
  have h0 := degreeOf_nonneg f
  have h7 := degreeOf_lt f
  unfold degreeDigitChar
  generalize hgen : degreeOf f = d at h0 h7 ⊢
  interval_cases d <;> decide

theorem degreeDigitChar_not_quality (f : Int) :
    degreeDigitChar f ≠ 'a' ∧ degreeDigitChar f ≠ 'd' := by
  have h0 := degreeOf_nonneg f
  have h7 := degreeOf_lt f
  unfold degreeDigitChar
  generalize hgen : degreeOf f = d at h0 h7 ⊢
  interval_cases d <;> exact ⟨by decide, by decide⟩

theorem pqdTail_degreeDigit (adj : Int → Option Int) (f : Int) (rest : List Char) :
    pqdTail adj (degreeDigitChar f :: rest) = (adj (degreeOf f)).map (fun v => (v, rest)) := by
  show (parseDegreeDigit (degreeDigitChar f)).bind _ = _
  rw [parseDegreeDigit_degreeDigitChar]
  rfl

theorem spanCount_run {p : Char → Bool} {c x : Char} (hc : p c = true) (hx : p x = false)
    (n : Nat) (rest : List Char) :
    spanCount p (List.replicate n c ++ x :: rest) = (n, x :: rest) := by
  rw [spanCount_replicate hc n (x :: rest), spanCount_cons_neg rest hx]
  show (0 + n, x :: rest) = (n, x :: rest)
  rw [Nat.zero_add]

theorem parseQualDigit_qualDigitChars (f : Int) (rest : List Char) :
    parseQualDigit (qualDigitChars f ++ rest) = some (f, rest) := by
  have hbase := baseFifths_degreeOf f
  have hnq := degreeDigitChar_not_quality f
  have hnqa : (fun x => decide (x = 'a')) (degreeDigitChar f) = false := by
    simp only [decide_eq_false_iff_not]
    exact hnq.1
  have hnqd : (fun x => decide (x = 'd')) (degreeDigitChar f) = false := by
    simp only [decide_eq_false_iff_not]
    exact hnq.2
  unfold qualDigitChars qualityChars
  by_cases hp : perfectDegree (degreeOf f)
  · rw [if_pos hp]
    by_cases h0 : alterationOf f = 0
    · rw [if_pos h0]
      simp only [List.cons_append, List.nil_append]
      show pqdTail (fun s => if perfectDegree s then some (baseFifths s) else none)
        (degreeDigitChar f :: rest) = some (f, rest)
      rw [pqdTail_degreeDigit, if_pos hp]
      exact congrArg some (by rw [Prod.mk.injEq]; exact ⟨by omega, rfl⟩)
    · rw [if_neg h0]
      by_cases hgt : 0 < alterationOf f
      · rw [if_pos hgt]
        obtain ⟨k, hk⟩ : ∃ k, (alterationOf f).toNat = k + 1 :=
          ⟨(alterationOf f).toNat - 1, by omega⟩
        rw [hk, List.replicate_succ]
        simp only [List.cons_append, List.append_assoc, List.singleton_append]
        show pqdTail
            (fun s => some (baseFifths s + 7 *
              (((spanCount (fun x => x = 'a')
                (List.replicate k 'a' ++ degreeDigitChar f :: rest)).1 : Int) + 1)))
            (spanCount (fun x => x = 'a')
              (List.replicate k 'a' ++ degreeDigitChar f :: rest)).2 = some (f, rest)
        rw [spanCount_run (by decide) hnqa k rest]
        rw [pqdTail_degreeDigit]
        exact congrArg some (by rw [Prod.mk.injEq]; exact ⟨by omega, rfl⟩)
      · rw [if_neg hgt]
        obtain ⟨k, hk⟩ : ∃ k, (-alterationOf f).toNat = k + 1 :=
          ⟨(-alterationOf f).toNat - 1, by omega⟩
        rw [hk, List.replicate_succ]
        simp only [List.cons_append, List.append_assoc, List.singleton_append]
        show pqdTail
            (fun s =>
              if perfectDegree s then
                some (baseFifths s - 7 *
                  (((spanCount (fun x => x = 'd')
                    (List.replicate k 'd' ++ degreeDigitChar f :: rest)).1 : Int) + 1))
              else
                some (baseFifths s - 7 *
                  (((spanCount (fun x => x = 'd')
                    (List.replicate k 'd' ++ degreeDigitChar f :: rest)).1 : Int) + 1) - 7))
            (spanCount (fun x => x = 'd')
              (List.replicate k 'd' ++ degreeDigitChar f :: rest)).2 = some (f, rest)
        rw [spanCount_run (by decide) hnqd k rest]
        rw [pqdTail_degreeDigit, if_pos hp]
        exact congrArg some (by rw [Prod.mk.injEq]; exact ⟨by omega, rfl⟩)
  · rw [if_neg hp]
    by_cases h0 : alterationOf f = 0
    · rw [if_pos h0]
      simp only [List.cons_append, List.nil_append]
      show pqdTail (fun s => if perfectDegree s then none else some (baseFifths s))
        (degreeDigitChar f :: rest) = some (f, rest)
      rw [pqdTail_degreeDigit, if_neg (by simp [hp])]
      exact congrArg some (by rw [Prod.mk.injEq]; exact ⟨by omega, rfl⟩)
    · rw [if_neg h0]
      by_cases hm : alterationOf f = -1
      · rw [if_pos hm]
        simp only [List.cons_append, List.nil_append]
        show pqdTail (fun s => if perfectDegree s then none else some (baseFifths s - 7))
          (degreeDigitChar f :: rest) = some (f, rest)
        rw [pqdTail_degreeDigit, if_neg (by simp [hp])]
        exact congrArg some (by rw [Prod.mk.injEq]; exact ⟨by omega, rfl⟩)
      · rw [if_neg hm]
        by_cases hgt : 0 < alterationOf f
        · rw [if_pos hgt]
          obtain ⟨k, hk⟩ : ∃ k, (alterationOf f).toNat = k + 1 :=
            ⟨(alterationOf f).toNat - 1, by omega⟩
          rw [hk, List.replicate_succ]
          simp only [List.cons_append, List.append_assoc, List.singleton_append]
          show pqdTail
              (fun s => some (baseFifths s + 7 *
                (((spanCount (fun x => x = 'a')
                  (List.replicate k 'a' ++ degreeDigitChar f :: rest)).1 : Int) + 1)))
              (spanCount (fun x => x = 'a')
                (List.replicate k 'a' ++ degreeDigitChar f :: rest)).2 = some (f, rest)
          rw [spanCount_run (by decide) hnqa k rest]
          rw [pqdTail_degreeDigit]
          exact congrArg some (by rw [Prod.mk.injEq]; exact ⟨by omega, rfl⟩)
        · rw [if_neg hgt]
          obtain ⟨k, hk⟩ : ∃ k, (-alterationOf f - 1).toNat = k + 1 :=
            ⟨(-alterationOf f - 1).toNat - 1, by omega⟩
          rw [hk, List.replicate_succ]
          simp only [List.cons_append, List.append_assoc, List.singleton_append]
          show pqdTail
              (fun s =>
                if perfectDegree s then
                  some (baseFifths s - 7 *
                    (((spanCount (fun x => x = 'd')
                      (List.replicate k 'd' ++ degreeDigitChar f :: rest)).1 : Int) + 1))
                else
                  some (baseFifths s - 7 *
                    (((spanCount (fun x => x = 'd')
                      (List.replicate k 'd' ++ degreeDigitChar f :: rest)).1 : Int) + 1) - 7))
              (spanCount (fun x => x = 'd')
                (List.replicate k 'd' ++ degreeDigitChar f :: rest)).2 = some (f, rest)
          rw [spanCount_run (by decide) hnqd k rest]
          rw [pqdTail_degreeDigit, if_neg (by simp [hp])]
          exact congrArg some (by rw [Prod.mk.injEq]; exact ⟨by omega, rfl⟩)

/-! ### Letter and accidental round-trip -/

theorem letterFifths_letterChar (f : Int) :
    letterFifths (letterChar f) = some (baseFifths (degreeOf f)) := by
  have h0 := degreeOf_nonneg f
  have h7 := degreeOf_lt f
  unfold letterChar baseFifths
  generalize hgen : degreeOf f = d at h0 h7 ⊢
  interval_cases d <;> decide

theorem spanCount_replicate_nil {p : Char → Bool} {c : Char} (hc : p c = true) (n : Nat) :
    spanCount p (List.replicate n c) = (n, []) := by
  have h := spanCount_replicate hc n []
  rw [List.append_nil] at h
  rw [h]
  show (0 + n, ([] : List Char)) = (n, [])
  rw [Nat.zero_add]

/-- A parser head-condition: the remainder after a pitch-class name must not
start with an accidental character. -/
def noAccidentalHead (rest : List Char) : Prop :=
  ∀ x xs, rest = x :: xs → isSharpChar x = false ∧ isFlatChar x = false

theorem pcAccidentals_nil (base : Int) : pcAccidentals base [] = some (base, []) := rfl

theorem pcAccidentals_cons (base : Int) (x : Char) (xs : List Char) :
    pcAccidentals base (x :: xs) =
      (if isSharpChar x then
        some (base + 7 * ((spanCount isSharpChar (x :: xs)).1 : Int),
          (spanCount isSharpChar (x :: xs)).2)
      else if isFlatChar x then
        some (base - 7 * ((spanCount isFlatChar (x :: xs)).1 : Int),
          (spanCount isFlatChar (x :: xs)).2)
      else some (base, x :: xs)) := rfl

theorem parsePCPrefix_spcChars (f : Int) (rest : List Char) (hrest : noAccidentalHead rest) :
    parsePCPrefix (spcChars f ++ rest) = some (f, rest) := by
  have hbase := baseFifths_degreeOf f
  unfold spcChars accidentalChars
  show (letterFifths (letterChar f)).bind _ = _
  rw [letterFifths_letterChar]
  show pcAccidentals (baseFifths (degreeOf f))
    ((if 0 ≤ alterationOf f then List.replicate (alterationOf f).toNat '#'
      else List.replicate (-(alterationOf f)).toNat 'b') ++ rest) = some (f, rest)
  by_cases hge : 0 ≤ alterationOf f
  · rw [if_pos hge]
    by_cases h0 : alterationOf f = 0
    · rw [show List.replicate (alterationOf f).toNat '#' = ([] : List Char) by rw [h0]; rfl]
      rw [List.nil_append]
      cases rest with
      | nil =>
        rw [pcAccidentals_nil]
        exact congrArg some (by rw [Prod.mk.injEq]; exact ⟨by omega, rfl⟩)
      | cons x xs =>
        obtain ⟨hs, hf⟩ := hrest x xs rfl
        rw [pcAccidentals_cons, if_neg (by simp [hs] : ¬ isSharpChar x = true),
          if_neg (by simp [hf] : ¬ isFlatChar x = true)]
        exact congrArg some (by rw [Prod.mk.injEq]; exact ⟨by omega, rfl⟩)
    · obtain ⟨k, hk⟩ : ∃ k, (alterationOf f).toNat = k + 1 :=
        ⟨(alterationOf f).toNat - 1, by omega⟩
      rw [hk, List.replicate_succ, List.cons_append]
      have hsc : spanCount isSharpChar ('#' :: (List.replicate k '#' ++ rest)) =
          (k + 1, rest) := by
        rw [show ('#' :: (List.replicate k '#' ++ rest)) =
            (List.replicate (k + 1) '#' ++ rest) by rw [List.replicate_succ]; rfl]
        cases rest with
        | nil =>
          rw [List.append_nil]
          exact spanCount_replicate_nil (by decide) (k + 1)
        | cons x xs =>
          obtain ⟨hs, _⟩ := hrest x xs rfl
          exact spanCount_run (by decide) hs (k + 1) xs
      rw [pcAccidentals_cons, if_pos (by decide : isSharpChar '#' = true), hsc]
      exact congrArg some (by rw [Prod.mk.injEq]; exact ⟨by omega, rfl⟩)
  · rw [if_neg hge]
    obtain ⟨k, hk⟩ : ∃ k, (-alterationOf f).toNat = k + 1 :=
      ⟨(-alterationOf f).toNat - 1, by omega⟩
    rw [hk, List.replicate_succ, List.cons_append]
    have hsc : spanCount isFlatChar ('b' :: (List.replicate k 'b' ++ rest)) =
        (k + 1, rest) := by
      rw [show ('b' :: (List.replicate k 'b' ++ rest)) =
          (List.replicate (k + 1) 'b' ++ rest) by rw [List.replicate_succ]; rfl]
      cases rest with
      | nil =>
        rw [List.append_nil]
        exact spanCount_replicate_nil (by decide) (k + 1)
      | cons x xs =>
        obtain ⟨_, hf⟩ := hrest x xs rfl
        exact spanCount_run (by decide) hf (k + 1) xs
    rw [pcAccidentals_cons, if_neg (by decide : ¬ isSharpChar 'b' = true),
      if_pos (by decide : isFlatChar 'b' = true), hsc]
    exact congrArg some (by rw [Prod.mk.injEq]; exact ⟨by omega, rfl⟩)

/-! ### Full-string round-trips -/

theorem parseIntervalChars_cons (c : Char) (rest : List Char) :
    parseIntervalChars (c :: rest) =
      if c = '-' then (parseIntervalBody rest).map SpelledInterval.neg
      else parseIntervalBody (c :: rest) := rfl

theorem parseSICChars_cons (c : Char) (rest : List Char) :
    parseSICChars (c :: rest) =
      if c = '-' then
        (parseQualDigit rest).bind (fun fr => if fr.2 = [] then some ⟨-fr.1⟩ else none)
      else
        (parseQualDigit (c :: rest)).bind (fun fr => if fr.2 = [] then some ⟨fr.1⟩ else none) :=
  rfl

theorem interval_from_independent_octaves (i : SpelledInterval) :
    SpelledInterval.from_independent i.fifths i.octaves = i := by
  cases i with
  | mk f o =>
    show SpelledInterval.mk f ((o + (f * 4) / 7) - (f * 4) / 7) = SpelledInterval.mk f o
    exact congrArg (SpelledInterval.mk f) (by omega)

theorem pitch_from_independent_octaves (p : SpelledPitch) :
    SpelledPitch.from_independent p.fifths p.octaves = p := by
  cases p with
  | mk f o =>
    show SpelledPitch.mk f ((o + (f * 4) / 7) - (f * 4) / 7) = SpelledPitch.mk f o
    exact congrArg (SpelledPitch.mk f) (by omega)

theorem spelled_interval_neg_neg (i : SpelledInterval) : i.neg.neg = i := by
  cases i with
  | mk f o =>
    show SpelledInterval.mk (-(-f)) (-(-o)) = SpelledInterval.mk f o
    rw [SpelledInterval.mk.injEq]
    exact ⟨by omega, by omega⟩

theorem parseIntervalBody_absChars (i : SpelledInterval) :
    parseIntervalBody (intervalAbsChars i) = some i := by
  unfold intervalAbsChars parseIntervalBody
  rw [parseQualDigit_qualDigitChars i.fifths (':' :: intChars i.octaves)]
  show (if (':' : Char) = ':' then
      (charsInt (intChars i.octaves)).map (SpelledInterval.from_independent i.fifths)
    else none) = some i
  rw [if_pos rfl, charsInt_intChars]
  show some (SpelledInterval.from_independent i.fifths i.octaves) = some i
  rw [interval_from_independent_octaves]

theorem qualDigitChars_head (f : Int) :
    ∃ c cs, qualDigitChars f = c :: cs ∧ c ≠ '-' := by
  unfold qualDigitChars qualityChars
  by_cases hp : perfectDegree (degreeOf f)
  · rw [if_pos hp]
    by_cases h0 : alterationOf f = 0
    · rw [if_pos h0]
      exact ⟨'P', [degreeDigitChar f], rfl, by decide⟩
    · rw [if_neg h0]
      by_cases hgt : 0 < alterationOf f
      · rw [if_pos hgt]
        obtain ⟨k, hk⟩ : ∃ k, (alterationOf f).toNat = k + 1 :=
          ⟨(alterationOf f).toNat - 1, by omega⟩
        rw [hk, List.replicate_succ, List.cons_append]
        exact ⟨'a', _, rfl, by decide⟩
      · rw [if_neg hgt]
        obtain ⟨k, hk⟩ : ∃ k, (-alterationOf f).toNat = k + 1 :=
          ⟨(-alterationOf f).toNat - 1, by omega⟩
        rw [hk, List.replicate_succ, List.cons_append]
        exact ⟨'d', _, rfl, by decide⟩
  · rw [if_neg hp]
    by_cases h0 : alterationOf f = 0
    · rw [if_pos h0]
      exact ⟨'M', [degreeDigitChar f], rfl, by decide⟩
    · rw [if_neg h0]
      by_cases hm : alterationOf f = -1
      · rw [if_pos hm]
        exact ⟨'m', [degreeDigitChar f], rfl, by decide⟩
      · rw [if_neg hm]
        by_cases hgt : 0 < alterationOf f
        · rw [if_pos hgt]
          obtain ⟨k, hk⟩ : ∃ k, (alterationOf f).toNat = k + 1 :=
            ⟨(alterationOf f).toNat - 1, by omega⟩
          rw [hk, List.replicate_succ, List.cons_append]
          exact ⟨'a', _, rfl, by decide⟩
        · rw [if_neg hgt]
          obtain ⟨k, hk⟩ : ∃ k, (-alterationOf f - 1).toNat = k + 1 :=
            ⟨(-alterationOf f - 1).toNat - 1, by omega⟩
          rw [hk, List.replicate_succ, List.cons_append]
          exact ⟨'d', _, rfl, by decide⟩

theorem parseIntervalChars_intervalChars (i : SpelledInterval) :
    parseIntervalChars (intervalChars i) = some i := by
  unfold intervalChars
  by_cases hd : i.direction < 0
  · rw [if_pos hd, parseIntervalChars_cons, if_pos rfl, parseIntervalBody_absChars]
    show some i.neg.neg = some i
    rw [spelled_interval_neg_neg]
  · rw [if_neg hd]
    obtain ⟨c, cs, hc, hdash⟩ := qualDigitChars_head i.fifths
    have habs : intervalAbsChars i = c :: (cs ++ ':' :: intChars i.octaves) := by
      unfold intervalAbsChars
      rw [hc, List.cons_append]
    rw [habs, parseIntervalChars_cons, if_neg hdash, ← List.cons_append, ← hc,
      ← intervalAbsChars]
    exact parseIntervalBody_absChars i

theorem digit_not_accidental {x : Char} (h : isDigitChar x = true) :
    isSharpChar x = false ∧ isFlatChar x = false := by
  constructor
  · by_contra hc
    rw [Bool.not_eq_false] at hc
    unfold isSharpChar at hc
    rw [Bool.or_eq_true] at hc
    simp only [decide_eq_true_eq] at hc
    rcases hc with hc | hc <;> (subst hc; exact absurd h (by decide))
  · by_contra hc
    rw [Bool.not_eq_false] at hc
    unfold isFlatChar at hc
    rw [Bool.or_eq_true] at hc
    simp only [decide_eq_true_eq] at hc
    rcases hc with hc | hc <;> (subst hc; exact absurd h (by decide))

theorem intChars_noAccidentalHead (z : Int) : noAccidentalHead (intChars z) := by
  intro x xs h
  unfold intChars at h
  split at h
  · rw [List.cons.injEq] at h
    obtain ⟨h1, _⟩ := h
    exact ⟨by rw [← h1]; decide, by rw [← h1]; decide⟩
  · have hall := natChars_all_digits z.toNat
    rw [h, List.all_cons, Bool.and_eq_true] at hall
    exact digit_not_accidental hall.1

theorem parsePitchChars_pitchChars (p : SpelledPitch) :
    parsePitchChars (pitchChars p) = some p := by
  unfold pitchChars parsePitchChars
  rw [parsePCPrefix_spcChars p.fifths (intChars p.octaves) (intChars_noAccidentalHead _)]
  show (charsInt (intChars p.octaves)).map (SpelledPitch.from_independent p.fifths) = some p
  rw [charsInt_intChars]
  show some (SpelledPitch.from_independent p.fifths p.octaves) = some p
  rw [pitch_from_independent_octaves]

theorem noAccidentalHead_nil : noAccidentalHead [] := by
  intro x xs h
  exact List.noConfusion h

theorem parseSPCChars_spcChars (f : Int) : parseSPCChars (spcChars f) = some ⟨f⟩ := by
  unfold parseSPCChars
  rw [show spcChars f = spcChars f ++ [] from (List.append_nil _).symm,
    parsePCPrefix_spcChars f [] noAccidentalHead_nil]
  rfl

theorem parseSICChars_qualDigitChars (f : Int) :
    parseSICChars (qualDigitChars f) = some ⟨f⟩ := by
  obtain ⟨c, cs, hc, hdash⟩ := qualDigitChars_head f
  rw [hc, parseSICChars_cons, if_neg hdash, ← hc,
    show qualDigitChars f = qualDigitChars f ++ [] from (List.append_nil _).symm,
    parseQualDigit_qualDigitChars f []]
  rfl

/-! ## Claim theorems -/

/-- C1: For every spelled non-class value, the stored internal (dependent)
octaves and the notated (independent) octaves are related by
`internal_octaves = independent_octaves - floor(fifths * 4 / 7)`; consequently
`SpelledInterval.from_fifths_and_octaves(2, -1)` prints as `M2:0`, `octaves()`
returns the independent octaves (`SpelledInterval("-M2:0").octaves() = -1`),
and `internal_octaves()` returns the raw stored field. -/
theorem claim_C1_internal_octaves :
    (∀ i : SpelledInterval, i.internal_octaves = i.octaves - (i.fifths * 4) / 7) ∧
    (∀ p : SpelledPitch, p.internal_octaves = p.octaves - (p.fifths * 4) / 7) ∧
    (∀ f o : Int, (SpelledInterval.from_independent f o).internal_octaves = o - (f * 4) / 7) ∧
    (∀ f o : Int, (SpelledPitch.from_independent f o).internal_octaves = o - (f * 4) / 7) ∧
    (SpelledInterval.from_fifths_and_octaves 2 (-1)).name = "M2:0" ∧
    (SpelledInterval.parse "-M2:0").map SpelledInterval.octaves = some (-1) ∧
    (∀ f o : Int, (SpelledInterval.from_fifths_and_octaves f o).internal_octaves = o) := by
  refine ⟨?_, ?_, ?_, ?_, by decide, by decide, fun f o => rfl⟩
  · intro i
    show i.internal_octaves = (i.internal_octaves + (i.fifths * 4) / 7) - (i.fifths * 4) / 7
    omega
  · intro p
    show p.internal_octaves = (p.internal_octaves + (p.fifths * 4) / 7) - (p.fifths * 4) / 7
    omega
  · intro f o
    rfl
  · intro f o
    rfl

/-- C2: `direction()` of a spelled interval class returns the direction of the
shortest representative: `P4` has direction `1`, `P5` direction `-1`, the
perfect unison direction `0` and the diminished unison `d1` direction `-1`;
the interval `d1:0` is normalized to / printed as `-a1:0`. -/
theorem claim_C2_direction :
    (SpelledIntervalClass.parse "P4").map SpelledIntervalClass.direction = some 1 ∧
    (SpelledIntervalClass.parse "P5").map SpelledIntervalClass.direction = some (-1) ∧
    (SpelledIntervalClass.parse "P1").map SpelledIntervalClass.direction = some 0 ∧
    (SpelledIntervalClass.parse "d1").map SpelledIntervalClass.direction = some (-1) ∧
    SpelledIntervalClass.unison.direction = 0 ∧
    (SpelledInterval.parse "d1:0").map SpelledInterval.name = some "-a1:0" := by
  exact ⟨by decide, by decide, by decide, by decide, by decide, by decide⟩

/-- C3: Comparison of spelled non-class values is the lexicographic order on
(diatonic steps, alteration) and comparison of class values is exactly the
order of the fifths integer; each is a strict total order, and in particular
`P4:0 < a4:0 < aaaa4:0 < dddd5:0 < d5:0 < P5:0`, `m7 < P4 < P1 < P5 < M2`,
and `SpelledPitch("Cb-1") < SpelledPitch("C-1")`. -/
theorem claim_C3_ordering :
    (∀ i j : SpelledInterval, i.lt j ↔
      (i.diatonic_steps < j.diatonic_steps ∨
        (i.diatonic_steps = j.diatonic_steps ∧ i.alteration < j.alteration))) ∧
    (∀ p q : SpelledPitch, p.lt q ↔
      (p.diatonic_steps < q.diatonic_steps ∨
        (p.diatonic_steps = q.diatonic_steps ∧ p.alteration < q.alteration))) ∧
    (∀ a b : SpelledIntervalClass, a.lt b ↔ a.fifths < b.fifths) ∧
    (∀ a b : SpelledPitchClass, a.lt b ↔ a.fifths < b.fifths) ∧
    (∀ i : SpelledInterval, ¬ i.lt i) ∧
    (∀ i j k : SpelledInterval, i.lt j → j.lt k → i.lt k) ∧
    (∀ i j : SpelledInterval, i.lt j ∨ i = j ∨ j.lt i) ∧
    (∀ p : SpelledPitch, ¬ p.lt p) ∧
    (∀ p q r : SpelledPitch, p.lt q → q.lt r → p.lt r) ∧
    (∀ p q : SpelledPitch, p.lt q ∨ p = q ∨ q.lt p) ∧
    (∀ a : SpelledIntervalClass, ¬ a.lt a) ∧
    (∀ a b c : SpelledIntervalClass, a.lt b → b.lt c → a.lt c) ∧
    (∀ a b : SpelledIntervalClass, a.lt b ∨ a = b ∨ b.lt a) ∧
    (∀ a : SpelledPitchClass, ¬ a.lt a) ∧
    (∀ a b c : SpelledPitchClass, a.lt b → b.lt c → a.lt c) ∧
    (∀ a b : SpelledPitchClass, a.lt b ∨ a = b ∨ b.lt a) ∧
    (SpelledInterval.parse "P4:0" = some ⟨-1, 1⟩ ∧ SpelledInterval.parse "a4:0" = some ⟨6, -3⟩ ∧
      SpelledInterval.parse "aaaa4:0" = some ⟨27, -15⟩ ∧
      SpelledInterval.parse "dddd5:0" = some ⟨-27, 16⟩ ∧
      SpelledInterval.parse "d5:0" = some ⟨-6, 4⟩ ∧ SpelledInterval.parse "P5:0" = some ⟨1, 0⟩ ∧
      SpelledInterval.lt ⟨-1, 1⟩ ⟨6, -3⟩ ∧ SpelledInterval.lt ⟨6, -3⟩ ⟨27, -15⟩ ∧
      SpelledInterval.lt ⟨27, -15⟩ ⟨-27, 16⟩ ∧ SpelledInterval.lt ⟨-27, 16⟩ ⟨-6, 4⟩ ∧
      SpelledInterval.lt ⟨-6, 4⟩ ⟨1, 0⟩) ∧
    (SpelledIntervalClass.parse "m7" = some ⟨-2⟩ ∧ SpelledIntervalClass.parse "P4" = some ⟨-1⟩ ∧
      SpelledIntervalClass.parse "P1" = some ⟨0⟩ ∧ SpelledIntervalClass.parse "P5" = some ⟨1⟩ ∧
      SpelledIntervalClass.parse "M2" = some ⟨2⟩ ∧
      SpelledIntervalClass.lt ⟨-2⟩ ⟨-1⟩ ∧ SpelledIntervalClass.lt ⟨-1⟩ ⟨0⟩ ∧
      SpelledIntervalClass.lt ⟨0⟩ ⟨1⟩ ∧ SpelledIntervalClass.lt ⟨1⟩ ⟨2⟩) ∧
    (SpelledPitch.parse "Cb-1" = some ⟨-7, 3⟩ ∧ SpelledPitch.parse "C-1" = some ⟨0, -1⟩ ∧
      SpelledPitch.lt ⟨-7, 3⟩ ⟨0, -1⟩) := by
  refine ⟨fun i j => Iff.rfl, fun p q => Iff.rfl, fun a b => Iff.rfl, fun a b => Iff.rfl,
    ?_, ?_, ?_, ?_, ?_, ?_, ?_, ?_, ?_, ?_, ?_, ?_, ?_, ?_, ?_⟩
  · intro i
    unfold SpelledInterval.lt
    omega
  · intro i j k
    unfold SpelledInterval.lt
    omega
  · intro i j
    cases i with
    | mk a b =>
      cases j with
      | mk c d =>
        simp only [SpelledInterval.lt, SpelledInterval.diatonic_steps,
          SpelledInterval.alteration, alterationOf, SpelledInterval.mk.injEq]
        omega
  · intro p
    unfold SpelledPitch.lt
    omega
  · intro p q r
    unfold SpelledPitch.lt
    omega
  · intro p q
    cases p with
    | mk a b =>
      cases q with
      | mk c d =>
        simp only [SpelledPitch.lt, SpelledPitch.diatonic_steps,
          SpelledPitch.alteration, alterationOf, SpelledPitch.mk.injEq]
        omega
  · intro a
    unfold SpelledIntervalClass.lt
    omega
  · intro a b c
    unfold SpelledIntervalClass.lt
    omega
  · intro a b
    cases a with
    | mk x =>
      cases b with
      | mk y =>
        simp only [SpelledIntervalClass.lt, SpelledIntervalClass.mk.injEq]
        omega
  · intro a
    unfold SpelledPitchClass.lt
    omega
  · intro a b c
    unfold SpelledPitchClass.lt
    omega
  · intro a b
    cases a with
    | mk x =>
      cases b with
      | mk y =>
        simp only [SpelledPitchClass.lt, SpelledPitchClass.mk.injEq]
        omega
  · exact ⟨by decide, by decide, by decide, by decide, by decide, by decide, by decide,
      by decide, by decide, by decide, by decide⟩
  · exact ⟨by decide, by decide, by decide, by decide, by decide, by decide, by decide,
      by decide, by decide⟩
  · exact ⟨by decide, by decide, by decide⟩

/-- Witness for C3: the transitivity part applied at concrete intervals. -/
theorem claim_C3_ordering_witness :
    SpelledInterval.lt ⟨0, 0⟩ ⟨0, 2⟩ :=
  claim_C3_ordering.2.2.2.2.2.1 ⟨0, 0⟩ ⟨0, 1⟩ ⟨0, 2⟩ (by decide) (by decide)

/-- C4: Parsing and printing of spelled values round-trip exactly: for every
constructed spelled value, parsing its printed form yields the value back, and
printing the parse of a canonical (printed) string reproduces the string. -/
theorem claim_C4_roundtrip :
    (∀ i : SpelledInterval, SpelledInterval.parse i.name = some i) ∧
    (∀ p : SpelledPitch, SpelledPitch.parse p.name = some p) ∧
    (∀ a : SpelledIntervalClass, SpelledIntervalClass.parse a.name = some a) ∧
    (∀ a : SpelledPitchClass, SpelledPitchClass.parse a.name = some a) ∧
    (∀ i : SpelledInterval,
      (SpelledInterval.parse i.name).map SpelledInterval.name = some i.name) ∧
    (∀ p : SpelledPitch, (SpelledPitch.parse p.name).map SpelledPitch.name = some p.name) ∧
    (∀ a : SpelledIntervalClass,
      (SpelledIntervalClass.parse a.name).map SpelledIntervalClass.name = some a.name) ∧
    (∀ a : SpelledPitchClass,
      (SpelledPitchClass.parse a.name).map SpelledPitchClass.name = some a.name) := by
  have hi : ∀ i : SpelledInterval, SpelledInterval.parse i.name = some i :=
    fun i => parseIntervalChars_intervalChars i
  have hp : ∀ p : SpelledPitch, SpelledPitch.parse p.name = some p :=
    fun p => parsePitchChars_pitchChars p
  have hic : ∀ a : SpelledIntervalClass, SpelledIntervalClass.parse a.name = some a := by
    intro a
    cases a with
    | mk f => exact parseSICChars_qualDigitChars f
  have hpc : ∀ a : SpelledPitchClass, SpelledPitchClass.parse a.name = some a := by
    intro a
    cases a with
    | mk f => exact parseSPCChars_spcChars f
  refine ⟨hi, hp, hic, hpc, ?_, ?_, ?_, ?_⟩
  · intro i
    rw [hi i]
    rfl
  · intro p
    rw [hp p]
    rfl
  · intro a
    rw [hic a]
    rfl
  · intro a
    rw [hpc a]
    rfl

/-- C5: Spelled interval arithmetic satisfies the group and torsor laws:
associativity, unison as neutral element, inverses, compatibility of addition
with projection to interval classes, and the pitch/interval torsor laws
`p + (q - p) = q` and `(p - q) + q = p`. -/
theorem claim_C5_group_laws :
    (∀ i j k : SpelledInterval, i.add (j.add k) = (i.add j).add k) ∧
    (∀ i : SpelledInterval, i.add SpelledInterval.unison = i) ∧
    (∀ i : SpelledInterval, i.add i.neg = SpelledInterval.unison) ∧
    (∀ i j : SpelledInterval, (i.add j).ic = i.ic.add j.ic) ∧
    (∀ p q : SpelledPitch, p.addInterval (q.subPitch p) = q) ∧
    (∀ p q : SpelledPitch, q.addInterval (p.subPitch q) = p) := by
  refine ⟨?_, ?_, ?_, ?_, ?_, ?_⟩
  · intro i j k
    cases i with
    | mk a b =>
      cases j with
      | mk c d =>
        cases k with
        | mk e h =>
          show SpelledInterval.mk (a + (c + e)) (b + (d + h)) =
            SpelledInterval.mk ((a + c) + e) ((b + d) + h)
          rw [SpelledInterval.mk.injEq]
          exact ⟨by omega, by omega⟩
  · intro i
    cases i with
    | mk f o =>
      show SpelledInterval.mk (f + 0) (o + 0) = SpelledInterval.mk f o
      rw [SpelledInterval.mk.injEq]
      exact ⟨by omega, by omega⟩
  · intro i
    cases i with
    | mk a b =>
      show SpelledInterval.mk (a + -a) (b + -b) = SpelledInterval.mk 0 0
      rw [SpelledInterval.mk.injEq]
      exact ⟨by omega, by omega⟩
  · intro i j
    rfl
  · intro p q
    cases p with
    | mk a b =>
      cases q with
      | mk c d =>
        show SpelledPitch.mk (a + (c - a)) (b + (d - b)) = SpelledPitch.mk c d
        rw [SpelledPitch.mk.injEq]
        exact ⟨by omega, by omega⟩
  · intro p q
    cases p with
    | mk a b =>
      cases q with
      | mk c d =>
        show SpelledPitch.mk (c + (a - c)) (d + (b - d)) = SpelledPitch.mk a b
        rw [SpelledPitch.mk.injEq]
        exact ⟨by omega, by omega⟩

/-- C6: In the converter registry, after registering A→B and B→C with
implicit-converter creation enabled, the entry A→C exists as the pipeline
[A→B, B→C], `convert` composes the two pipelines and `has_path A C` holds;
with implicit creation disabled, `has_path A C` is false and `convert` fails
with the no-conversion-path error. -/
theorem claim_C6_converter_registry :
    ∀ (α : Type) (f g : α → α) (a : α),
      (ConversionRegistry.register
          (ConversionRegistry.register (ConversionRegistry.empty : ConversionRegistry α)
            0 1 f true) 1 2 g true).lookupPipeline 0 2 = some [f, g] ∧
      (ConversionRegistry.register
          (ConversionRegistry.register (ConversionRegistry.empty : ConversionRegistry α)
            0 1 f true) 1 2 g true).has_path 0 2 = true ∧
      (ConversionRegistry.register
          (ConversionRegistry.register (ConversionRegistry.empty : ConversionRegistry α)
            0 1 f true) 1 2 g true).convert 0 a 2 =
        .ok (ConversionRegistry.apply_pipeline [g] (ConversionRegistry.apply_pipeline [f] a)) ∧
      (ConversionRegistry.register
          (ConversionRegistry.register (ConversionRegistry.empty : ConversionRegistry α)
            0 1 f false) 1 2 g false).has_path 0 2 = false ∧
      (ConversionRegistry.register
          (ConversionRegistry.register (ConversionRegistry.empty : ConversionRegistry α)
            0 1 f false) 1 2 g false).convert 0 a 2 = .error "NoConversionPath" := by
  intro α f g a
  exact ⟨rfl, rfl, rfl, rfl, rfl⟩

/-- C7 counterexample: `SpelledPitchClass("Eb")` has fifths `-3`, which lies
outside the inclusive bounds `(-2, 2)`, so `onehot` raises an
index-out-of-bounds error instead of yielding `[0,0,0,1,0]` as claimed. -/
theorem claim_C7_counterexample :
    (SpelledPitchClass.parse "Eb").map (fun p => p.fifths) = some (-3) ∧
    (SpelledPitchClass.parse "Eb").map (fun p => p.onehot (-2, 2)) =
      some (.error "IndexOutOfRange") ∧
    (SpelledPitchClass.parse "Eb").map (fun p => p.onehot (-2, 2)) ≠
      some (.ok [0, 0, 0, 1, 0]) := by
  refine ⟨by decide, rfl, ?_⟩
  intro h
  exact Except.noConfusion (Option.some.inj h)

/-- C7 (amended): `onehot` of a class value over inclusive bounds
`(lower, upper)` is a 1-D vector of length `upper-lower+1` with a single `1`
at index `fifths-lower`, and a fifths value outside the bounds is an
index-out-of-bounds error; in particular `SpelledPitchClass("G").onehot((-2,2))`
yields the indicator `[0,0,0,1,0]` (fifths of `G` is `1`, index `3`). -/
theorem claim_C7_onehot :
    (SpelledPitchClass.onehot ⟨1⟩ (-2, 2) = .ok [0, 0, 0, 1, 0]) ∧
    ((SpelledPitchClass.parse "G").map (fun p => p.onehot (-2, 2)) =
      some (.ok [0, 0, 0, 1, 0])) ∧
    (∀ f lo hi : Int, lo ≤ f → f ≤ hi → ∃ l, onehotClass f lo hi = .ok l ∧
      l.length = (hi - lo + 1).toNat ∧
      (∀ j : Nat, l.getD j 0 = if (j : Int) = f - lo then 1 else 0)) ∧
    (∀ f lo hi : Int, f < lo ∨ hi < f → onehotClass f lo hi = .error "IndexOutOfRange") := by
  refine ⟨by rfl, by rfl, ?_, ?_⟩
  · intro f lo hi hlo hhi
    refine ⟨(List.range (hi - lo + 1).toNat).map
      (fun (k : Nat) => if lo + (k : Int) = f then (1 : Int) else 0), ?_, ?_, ?_⟩
    · unfold onehotClass
      rw [if_neg (by simp; omega)]
    · rw [List.length_map, List.length_range]
    · intro j
      rw [List.getD_eq_getElem?_getD]
      by_cases hj : j < (hi - lo + 1).toNat
      · rw [List.getElem?_map, List.getElem?_range hj]
        show (if lo + (j : Int) = f then (1 : Int) else 0) = _
        split_ifs <;> omega
      · rw [List.getElem?_eq_none (by rw [List.length_map, List.length_range]; omega)]
        show (0 : Int) = if (j : Int) = f - lo then 1 else 0
        rw [if_neg (by omega)]
  · intro f lo hi hout
    unfold onehotClass
    rw [if_pos (by simp; omega)]

/-- Witness for C7 (amended): the in-range part applied at `G` over `(-2,2)`. -/
theorem claim_C7_onehot_witness :
    ∃ l, onehotClass 1 (-2) 2 = .ok l ∧ l.length = ((2 : Int) - (-2) + 1).toNat ∧
      (∀ j : Nat, l.getD j 0 = if (j : Int) = 1 - (-2) then 1 else 0) :=
  claim_C7_onehot.2.2.1 1 (-2) 2 (by norm_num) (by norm_num)

/-- C8 counterexample: a leading `-` on an interval-class string is not
rejected as malformed: `SpelledIntervalClass("-M3")` parses successfully and
is normalized to the complementary upward class `m6`, exactly as in the
repository documentation's doctest. -/
theorem claim_C8_counterexample :
    SpelledIntervalClass.parse "-M3" = some ⟨-4⟩ ∧
    (SpelledIntervalClass.parse "-M3").map SpelledIntervalClass.name = some "m6" := by
  exact ⟨by decide, by decide⟩

/-- C8 (amended): a leading `-` on a non-class interval string negates the
whole parsed value, while a leading `-` on an interval-class string is
accepted and normalized to the complementary upward class (not rejected). -/
theorem claim_C8_sign_handling :
    (∀ i : SpelledInterval, parseIntervalChars ('-' :: intervalAbsChars i) = some i.neg) ∧
    (∀ f : Int, parseSICChars ('-' :: qualDigitChars f) = some ⟨-f⟩) ∧
    SpelledIntervalClass.parse "-M3" = SpelledIntervalClass.parse "m6" ∧
    SpelledInterval.parse "-M2:1" = (SpelledInterval.parse "M2:1").map SpelledInterval.neg := by
  refine ⟨?_, ?_, by decide, by decide⟩
  · intro i
    rw [parseIntervalChars_cons, if_pos rfl, parseIntervalBody_absChars]
    rfl
  · intro f
    rw [parseSICChars_cons, if_pos rfl,
      show qualDigitChars f = qualDigitChars f ++ [] from (List.append_nil _).symm,
      parseQualDigit_qualDigitChars f []]
    rfl

/-- C9 counterexample: `generic()` (and `diatonic_steps()`) fail on spelled
pitch types — they were removed from pitch types in v0.4.0 (changelog) — so
the claim that none of the accessors fails on any of the four variants is
false. -/
theorem claim_C9_counterexample :
    (SpelledPitch.parse "C4").map SpelledPitch.generic =
      some (.error "NotImplementedError: generic is not defined for pitches") ∧
    (SpelledPitchClass.parse "C").map SpelledPitchClass.generic =
      some (.error "NotImplementedError: generic is not defined for pitches") := by
  exact ⟨rfl, rfl⟩

/-- C9 (amended): the interval variants provide total `degree()`, `generic()`,
`diatonic_steps()` and `alteration()` accessors (matching the documentation's
worked examples), the pitch variants provide total `degree()`, `alteration()`
and `letter()`, but `generic()` and `diatonic_steps()` fail on pitch types
(removed in v0.4.0). -/
theorem claim_C9_accessors :
    ((SpelledInterval.parse "-M3:1").map SpelledInterval.generic = some (-2)) ∧
    ((SpelledInterval.parse "-M3:1").map SpelledInterval.diatonic_steps = some (-9)) ∧
    ((SpelledInterval.parse "-M3:1").map SpelledInterval.degree = some 5) ∧
    ((SpelledInterval.parse "-M3:1").map SpelledInterval.alteration = some (-1)) ∧
    (∀ a : SpelledIntervalClass, a.generic = a.degree ∧ a.diatonic_steps = a.degree) ∧
    ((SpelledIntervalClass.parse "-M3").map SpelledIntervalClass.degree = some 5) ∧
    ((SpelledIntervalClass.parse "-M3").map SpelledIntervalClass.alteration = some (-1)) ∧
    ((SpelledPitch.parse "Eb4").map SpelledPitch.degree = some 2) ∧
    ((SpelledPitch.parse "Eb4").map SpelledPitch.alteration = some (-1)) ∧
    ((SpelledPitch.parse "Eb4").map SpelledPitch.letter = some 'E') ∧
    ((SpelledPitchClass.parse "Eb").map SpelledPitchClass.letter = some 'E') ∧
    (∀ p : SpelledPitch,
      p.generic = .error "NotImplementedError: generic is not defined for pitches") ∧
    (∀ p : SpelledPitch, p.diatonic_stepsAccessor =
      .error "NotImplementedError: diatonic_steps is not defined for pitches") ∧
    (∀ p : SpelledPitchClass,
      p.generic = .error "NotImplementedError: generic is not defined for pitches") ∧
    (∀ p : SpelledPitchClass, p.diatonic_stepsAccessor =
      .error "NotImplementedError: diatonic_steps is not defined for pitches") := by
  exact ⟨by decide, by decide, by decide, by decide, fun a => ⟨rfl, rfl⟩, by decide, by decide,
    by decide, by decide, by decide, by decide, fun p => rfl, fun p => rfl, fun p => rfl,
    fun p => rfl⟩

/-- C10: On pitch types, `degree()` returns the diatonic index of the letter
with C=0, ..., B=6 (independent of octave and accidentals), `alteration()`
returns the signed count of accidentals, and `letter()` returns the uppercase
letter character; e.g. `SpelledPitch("Dbb4")` has degree 1, alteration -2 and
letter D. -/
theorem claim_C10_pitch_accessors :
    (∀ p : SpelledPitch, letterIndex p.letter = some p.degree) ∧
    (∀ f o o' : Int, (SpelledPitch.mk f o).degree = (SpelledPitch.mk f o').degree) ∧
    (∀ f o o' : Int, (SpelledPitch.mk f o).letter = (SpelledPitch.mk f o').letter) ∧
    (∀ f o k : Int, (SpelledPitch.mk (f + 7 * k) o).degree = (SpelledPitch.mk f o).degree) ∧
    (∀ f o k : Int,
      (SpelledPitch.mk (f + 7 * k) o).alteration = (SpelledPitch.mk f o).alteration + k) ∧
    (∀ f o k : Int, (SpelledPitch.mk (f + 7 * k) o).letter = (SpelledPitch.mk f o).letter) ∧
    (∀ p : SpelledPitch, letterFifths p.letter = some (p.fifths - 7 * p.alteration)) ∧
    ((SpelledPitch.parse "Dbb4").map SpelledPitch.degree = some 1) ∧
    ((SpelledPitch.parse "Dbb4").map SpelledPitch.alteration = some (-2)) ∧
    ((SpelledPitch.parse "Dbb4").map SpelledPitch.letter = some 'D') := by
  refine ⟨?_, fun f o o' => rfl, fun f o o' => rfl, ?_, ?_, ?_, ?_,
    by decide, by decide, by decide⟩
  · intro p
    show letterIndex (letterChar p.fifths) = some (degreeOf p.fifths)
    have h0 := degreeOf_nonneg p.fifths
    have h7 := degreeOf_lt p.fifths
    unfold letterChar
    generalize hgen : degreeOf p.fifths = d at h0 h7 ⊢
    interval_cases d <;> decide
  · intro f o k
    show degreeOf (f + 7 * k) = degreeOf f
    unfold degreeOf
    omega
  · intro f o k
    show alterationOf (f + 7 * k) = alterationOf f + k
    unfold alterationOf
    omega
  · intro f o k
    show letterChar (f + 7 * k) = letterChar f
    have hd : degreeOf (f + 7 * k) = degreeOf f := by
      unfold degreeOf
      omega
    unfold letterChar
    rw [hd]
  · intro p
    show letterFifths (letterChar p.fifths) = _
    rw [letterFifths_letterChar]
    refine congrArg some ?_
    have hb := baseFifths_degreeOf p.fifths
    show baseFifths (degreeOf p.fifths) = p.fifths - 7 * alterationOf p.fifths
    omega

end PitchTypes
